import Mathlib

/-!
Verification of the directory-tree watch cache of inotify_dtree.c.

Pathnames are modelled as lists of characters (the C code manipulates
NUL-terminated byte strings; no cached path contains a NUL).  The watch
cache is the slot array wlCache, the root set is rootDirPaths, and the
event processor is processNextInotifyEvent.  External effects are
parameters: walk (the entries an nftw traversal of a subtree would
register via inotify_add_watch), and rmOk (whether inotify_rm_watch on a
given descriptor succeeds).  Logging and diagnostics are omitted;
process-terminating calls are modelled as distinguished outcomes.
-/

namespace InotifyDtree

abbrev DirPath := List Char

/-- Build a path from a string literal (demo inputs only). -/
def pstr (s : String) : DirPath := s.toList

/-- struct watch: watch descriptor (-1 if the slot is unused) and the
cached pathname. -/
structure Watch where
  wd : Int
  path : DirPath
deriving DecidableEq, Repr

/-- The contents markCacheSlotEmpty leaves in a slot: wd = -1 and an
empty pathname. -/
def emptyWatch : Watch := ⟨-1, []⟩

/-- findWatch: first cache slot whose wd equals the argument. -/
def findWatch (cache : List Watch) (wd : Int) : Option Nat :=
  cache.findIdx? (fun w => w.wd == wd)

/-- pathnameToCacheSlot: first active slot (wd >= 0) whose path equals the
argument. -/
def pathnameToCacheSlot (cache : List Watch) (p : DirPath) : Option Nat :=
  cache.findIdx? (fun w => decide (0 ≤ w.wd) && (w.path == p))

/-- pathnameInCache. -/
def pathnameInCache (cache : List Watch) (p : DirPath) : Bool :=
  (pathnameToCacheSlot cache p).isSome

/-- markCacheSlotEmpty: wd := -1, path := empty. -/
def markCacheSlotEmpty (slot : Nat) (cache : List Watch) : List Watch :=
  cache.set slot emptyWatch

/-- findEmptyCacheSlot (search part): first slot with wd = -1. -/
def findEmptyCacheSlot (cache : List Watch) : Option Nat :=
  cache.findIdx? (fun w => w.wd == -1)

/-- addWatchToCache: fill the first free slot; when none exists the C code
grows the array by ALLOC_INCR = 200 empty slots and uses the first. -/
def addWatchToCache (wd : Int) (p : DirPath) (cache : List Watch) : List Watch :=
  match findEmptyCacheSlot cache with
  | some j => cache.set j ⟨wd, p⟩
  | none => cache ++ ⟨wd, p⟩ :: List.replicate 199 emptyWatch

/-- watchSubtree / traverseTree: register each directory found by the
walk, skipping a wd already present in the cache.  entries is the list of
(wd, pathname) registrations the nftw traversal produces. -/
def watchSubtree (entries : List Watch) (cache : List Watch) : List Watch :=
  entries.foldl
    (fun c e => if (findWatch c e.wd).isSome then c else addWatchToCache e.wd e.path c)
    cache

/-- The prefix test of rewriteCachedPaths and zapSubtree:
strncmp(full, p, strlen(full)) == 0 and p[strlen(full)] is a slash or the
terminating NUL. -/
def matchesDelim (full p : DirPath) : Bool :=
  full.isPrefixOf p &&
    (match p.drop full.length with
     | [] => true
     | c :: _ => c == '/')

/-- The delimited-prefix relation, stated structurally: p extends full by a
suffix that is empty or starts with a slash. -/
def DelimPrefix (full p : DirPath) : Prop :=
  ∃ s, p = full ++ s ∧ (s = [] ∨ ∃ t, s = '/' :: t)

/-- The per-slot update of rewriteCachedPaths. -/
def rewriteEntry (fullPath newPre : DirPath) (w : Watch) : Watch :=
  if matchesDelim fullPath w.path then
    { w with path := newPre ++ w.path.drop fullPath.length }
  else w

/-- rewriteCachedPaths: the directory oldPathStart/oldName was renamed to
newPathStart/newName; every slot whose path has the old full path as a
delimited prefix gets that prefix replaced, keeping the suffix. -/
def rewriteCachedPaths (oldPathStart oldName newPathStart newName : DirPath)
    (cache : List Watch) : List Watch :=
  cache.map (rewriteEntry (oldPathStart ++ '/' :: oldName) (newPathStart ++ '/' :: newName))

/-- zapSubtree: scan the slots in order; for each active slot whose path
has p as a delimited prefix, remove the kernel watch and empty the slot;
if inotify_rm_watch fails the C code stops and returns -1 (modelled as
none, its callers rebuild the cache). -/
def zapSubtree (rmOk : Int → Bool) (p : DirPath) : List Watch → Option (List Watch)
  | [] => some []
  | w :: ws =>
    if 0 ≤ w.wd ∧ matchesDelim p w.path then
      if rmOk w.wd then (zapSubtree rmOk p ws).map (fun c => emptyWatch :: c)
      else none
    else (zapSubtree rmOk p ws).map (fun c => w :: c)

/-- findRootDirPath: index of the first non-NULL root path string equal to
p. -/
def findRootDirPath (roots : List (Option DirPath)) (p : DirPath) : Option Nat :=
  roots.findIdx? (fun r => r == some p)

/-- isRootDirPath. -/
def isRootDirPath (roots : List (Option DirPath)) (p : DirPath) : Bool :=
  (findRootDirPath roots p).isSome

/-- The mutable engine state: the watch cache, the root path list (none =
zapped slot, the C code stores a NULL pointer), the zapped-root counter,
the fixed number of roots, and a generation counter standing for the
identity of the inotify file descriptor (reinitializeCache closes the old one
and opens a new one). -/
structure EngineState where
  wlCache : List Watch
  rootDirPaths : List (Option DirPath)
  ignoreRootDirs : Nat
  numRootDirs : Nat
  generation : Nat
deriving DecidableEq, Repr

/-- Outcome of zapRootDirPath: the C code exits with failure when the path
is not in the root list, exits successfully when the last root has been
zapped, and otherwise continues. -/
inductive ZapRootResult where
  | fatal
  | terminated
  | ok (st : EngineState)
deriving DecidableEq, Repr

/-- zapRootDirPath: set the matching root pointer to NULL, count it, and
terminate the program when no roots remain. -/
def zapRootDirPath (st : EngineState) (p : DirPath) : ZapRootResult :=
  match findRootDirPath st.rootDirPaths p with
  | none => .fatal
  | some j =>
    if st.ignoreRootDirs + 1 = st.numRootDirs then .terminated
    else .ok { st with rootDirPaths := st.rootDirPaths.set j none,
                       ignoreRootDirs := st.ignoreRootDirs + 1 }

/-- reinitializeCache: discard the inotify descriptor (generation bump), clear
the cache, and rebuild it with a full walk of every non-zapped root. -/
def reinitializeCache (walk : DirPath → List Watch) (st : EngineState) : EngineState :=
  { st with
    wlCache := st.rootDirPaths.foldl
      (fun c r => match r with
        | some p => watchSubtree (walk p) c
        | none => c) [],
    generation := st.generation + 1 }

/-- The mask bits of struct inotify_event that the program inspects. -/
structure EventMask where
  isDir : Bool
  create : Bool
  deleteSelf : Bool
  movedFrom : Bool
  movedTo : Bool
  moveSelf : Bool
  qOverflow : Bool
  unmount : Bool
  ignored : Bool
deriving DecidableEq, Repr

/-- The mask of a kernel queue-overflow record: only IN_Q_OVERFLOW set. -/
def qOverflowMask : EventMask :=
  ⟨false, false, false, false, false, false, true, false, false⟩

/-- One inotify record. -/
structure InotifyEvent where
  wd : Int
  mask : EventMask
  cookie : Nat
  name : DirPath
deriving DecidableEq, Repr

/-- Result of processNextInotifyEvent.  consumed n: n records consumed
(the C function returns their byte length).  discardRest: the function
returned INOTIFY_READ_BUF_LEN after reinitializing, abandoning the rest of
the read buffer.  deferRead: the function returned -1 asking the caller
for a supplementary read.  terminated / fatalError: the process exited.
aborted: createStopFileAndAbort ran (stop file created, cache snapshot
dumped, abort).  undefinedBehavior: the C code would read the
uninitialized evCacheSlot, which cannot happen for kernel-generated
records. -/
inductive ProcessResult where
  | consumed (n : Nat) (st : EngineState)
  | discardRest (st : EngineState)
  | deferRead
  | terminated
  | fatalError
  | aborted
  | undefinedBehavior
deriving DecidableEq, Repr

/-- wlCache[j]. -/
def cacheAt (st : EngineState) (j : Nat) : Watch :=
  st.wlCache.getD j emptyWatch

/-- Replace the watch cache of a state (all other fields unchanged). -/
def withCache (st : EngineState) (c : List Watch) : EngineState :=
  { st with wlCache := c }

/-- The dispatch ladder of processNextInotifyEvent, after the initial
findWatchChecked lookup.  next? is the record following the current one in
the read buffer, if any (the C body inspects the buffer beyond the current
record only through nextEv, the immediately following record, and the
bounds check on it).  slot? is the cache slot of the event's wd when the
lookup was performed. -/
def processEventDispatch (abortFlag : Bool) (walk : DirPath → List Watch)
    (rmOk : Int → Bool) (st : EngineState) (ev : InotifyEvent)
    (next? : Option InotifyEvent) (firstTry : Bool) (slot? : Option Nat) :
    ProcessResult :=
  if ev.mask.isDir && (ev.mask.create || ev.mask.movedTo) then
    match slot? with
    | none => .undefinedBehavior
    | some s =>
      let fullPath := (cacheAt st s).path ++ '/' :: ev.name
      if pathnameInCache st.wlCache fullPath then .consumed 1 st
      else .consumed 1 { st with wlCache := watchSubtree (walk fullPath) st.wlCache }
  else if ev.mask.deleteSelf then
    match slot? with
    | none => .undefinedBehavior
    | some s =>
      if isRootDirPath st.rootDirPaths (cacheAt st s).path then
        match zapRootDirPath st (cacheAt st s).path with
        | .fatal => .fatalError
        | .terminated => .terminated
        | .ok st' => .consumed 1 { st' with wlCache := markCacheSlotEmpty s st'.wlCache }
      else .consumed 1 { st with wlCache := markCacheSlotEmpty s st.wlCache }
  else if ev.mask.movedFrom && ev.mask.isDir then
    match slot? with
    | none => .undefinedBehavior
    | some s =>
      match next? with
      | some nextEv =>
        if nextEv.mask.movedTo && nextEv.cookie == ev.cookie then
          match findWatch st.wlCache nextEv.wd with
          | none =>
            if abortFlag then .aborted else .discardRest (reinitializeCache walk st)
          | some ns =>
            let c := rewriteCachedPaths (cacheAt st s).path ev.name
              (cacheAt st ns).path nextEv.name st.wlCache
            .consumed 2 { st with wlCache := c }
        else
          match zapSubtree rmOk ((cacheAt st s).path ++ '/' :: ev.name) st.wlCache with
          | none => .discardRest (reinitializeCache walk st)
          | some c => .consumed 1 { st with wlCache := c }
      | none =>
        if firstTry then .deferRead
        else
          match zapSubtree rmOk ((cacheAt st s).path ++ '/' :: ev.name) st.wlCache with
          | none => .discardRest (reinitializeCache walk st)
          | some c => .consumed 1 { st with wlCache := c }
  else if ev.mask.qOverflow then
    .discardRest (reinitializeCache walk st)
  else if ev.mask.unmount then
    match slot? with
    | none => .undefinedBehavior
    | some s => .consumed 1 { st with wlCache := markCacheSlotEmpty s st.wlCache }
  else if ev.mask.moveSelf then
    match slot? with
    | none => .undefinedBehavior
    | some s =>
      if isRootDirPath st.rootDirPaths (cacheAt st s).path then
        match zapRootDirPath st (cacheAt st s).path with
        | .fatal => .fatalError
        | .terminated => .terminated
        | .ok st' =>
          match zapSubtree rmOk (cacheAt st s).path st'.wlCache with
          | none => .discardRest (reinitializeCache walk st')
          | some c => .consumed 1 { st' with wlCache := c }
      else .consumed 1 st
  else .consumed 1 st

/-- processNextInotifyEvent: for a record with a real wd that is not
IN_IGNORED, findWatchChecked resolves the cache slot; a miss either aborts
(abortOnCacheProblem) or reinitializes and discards the remaining buffered
records.  Then the dispatch ladder runs. -/
def processNextInotifyEvent (abortFlag : Bool) (walk : DirPath → List Watch)
    (rmOk : Int → Bool) (st : EngineState) (ev : InotifyEvent)
    (rest : List InotifyEvent) (firstTry : Bool) : ProcessResult :=
  if ev.wd ≠ -1 ∧ ev.mask.ignored = false then
    match findWatch st.wlCache ev.wd with
    | none => if abortFlag then .aborted else .discardRest (reinitializeCache walk st)
    | some s =>
      processEventDispatch abortFlag walk rmOk st ev rest.head? firstTry (some s)
  else
    processEventDispatch abortFlag walk rmOk st ev rest.head? firstTry none

/-- Outcome of one processInotifyEvents invocation (one outer read plus
the event loop over the buffer). -/
inductive LoopResult where
  | done (st : EngineState)
  | terminated
  | fatal
  | aborted
  | ub
deriving DecidableEq, Repr

/-- The event loop of processInotifyEvents over one read buffer, with
explicit fuel.  buf holds the records still to process; supply holds the
batches that successive supplementary (timer-bounded) reads would return,
one batch consumed per deferral; firstTry is the retry flag.  A consumed
step advances past the consumed records and resets firstTry; a deferral
keeps the unconsumed records (the C code shuffles them to the start of the
buffer), appends the supplementary batch, and clears firstTry. -/
def processLoopFuel (abortFlag : Bool) (walk : DirPath → List Watch)
    (rmOk : Int → Bool) :
    Nat → EngineState → List InotifyEvent → Bool → List (List InotifyEvent) →
    Option LoopResult
  | 0, _, _, _, _ => none
  | _ + 1, st, [], _, _ => some (.done st)
  | fuel + 1, st, ev :: rest, firstTry, supply =>
    match processNextInotifyEvent abortFlag walk rmOk st ev rest firstTry with
    | .consumed n st' =>
      processLoopFuel abortFlag walk rmOk fuel st' (List.drop n (ev :: rest)) true supply
    | .discardRest st' => some (.done st')
    | .deferRead =>
      processLoopFuel abortFlag walk rmOk fuel st (ev :: rest ++ supply.headD [])
        false supply.tail
    | .terminated => some .terminated
    | .fatalError => some .fatal
    | .aborted => some .aborted
    | .undefinedBehavior => some .ub

/-- Total number of records in the supplementary batches. -/
def supplyLen (supply : List (List InotifyEvent)) : Nat :=
  (supply.map List.length).sum

/-- Fuel bound for the event loop. -/
def loopMeasure (buf : List InotifyEvent) (firstTry : Bool)
    (supply : List (List InotifyEvent)) : Nat :=
  2 * (buf.length + supplyLen supply) + supply.length +
    (if firstTry then 1 else 0) + 1

/-! Concrete inputs used by witnesses and counterexamples. -/

/-- A walk oracle that finds no directories. -/
def walk0 : DirPath → List Watch := fun _ => []

/-- A removal oracle for which inotify_rm_watch always succeeds. -/
def rmOkAll : Int → Bool := fun _ => true

/-- Mask of a directory IN_MOVED_FROM record. -/
def movedFromDirMask : EventMask :=
  ⟨true, false, false, true, false, false, false, false, false⟩

/-- Mask of a directory IN_MOVED_TO record. -/
def movedToDirMask : EventMask :=
  ⟨true, false, false, false, true, false, false, false, false⟩

/-- Mask of a directory IN_CREATE record. -/
def createDirMask : EventMask :=
  ⟨true, true, false, false, false, false, false, false, false⟩

/-- Demo state: root /t is cached with its subdirectory /t/a. -/
def demoState : EngineState :=
  { wlCache := [⟨1, pstr "/t"⟩, ⟨2, pstr "/t/a"⟩],
    rootDirPaths := [some (pstr "/t")],
    ignoreRootDirs := 0,
    numRootDirs := 1,
    generation := 0 }

/-- Demo state for C7: a second root /t/a nested under the first. -/
def nestedRootState : EngineState :=
  { wlCache := [⟨1, pstr "/t"⟩, ⟨2, pstr "/t/a"⟩],
    rootDirPaths := [some (pstr "/t"), some (pstr "/t/a")],
    ignoreRootDirs := 0,
    numRootDirs := 2,
    generation := 0 }

/-- Directory a moved away from /t, rename cookie 7. -/
def demoMovedFrom : InotifyEvent := ⟨1, movedFromDirMask, 7, pstr "a"⟩

/-- Directory b moved into /t, rename cookie 7. -/
def demoMovedTo : InotifyEvent := ⟨1, movedToDirMask, 7, pstr "b"⟩

/-- Directory x created under /t (an unrelated following record). -/
def demoCreate : InotifyEvent := ⟨1, createDirMask, 0, pstr "x"⟩

/-- Directory a created under /t; its full path is already cached. -/
def demoCreateA : InotifyEvent := ⟨1, createDirMask, 0, pstr "a"⟩

/-- An event whose watch descriptor is absent from the cache. -/
def strayEvent : InotifyEvent := ⟨99, createDirMask, 0, pstr "x"⟩

/-- A kernel queue-overflow record. -/
def overflowEvent : InotifyEvent := ⟨-1, qOverflowMask, 0, []⟩

/-- Cache for the rename scenario: root /r, directory /r/A and its child
/r/A/C. -/
def renameDemoCache : List Watch :=
  [⟨1, pstr "/r"⟩, ⟨2, pstr "/r/A"⟩, ⟨3, pstr "/r/A/C"⟩]

/-- nestedRootState after the in-tree rename of /t/a to /t/b. -/
def renamedNestedRootState : EngineState :=
  { nestedRootState with wlCache := [⟨1, pstr "/t"⟩, ⟨2, pstr "/t/b"⟩] }

/-- nestedRootState after the nested root /t/a has been zapped. -/
def zappedNestedState : EngineState :=
  { nestedRootState with rootDirPaths := [some (pstr "/t"), none],
                         ignoreRootDirs := 1 }

/-- A state whose single root is still being monitored. -/
def lastRootState : EngineState :=
  { wlCache := [⟨1, pstr "/t"⟩],
    rootDirPaths := [some (pstr "/t")],
    ignoreRootDirs := 0,
    numRootDirs := 1,
    generation := 0 }

/-! Helper lemmas. -/

theorem isPrefixOf_true_iff (l₁ l₂ : DirPath) :
    l₁.isPrefixOf l₂ = true ↔ ∃ t, l₂ = l₁ ++ t := by
  induction l₁ generalizing l₂ with
  | nil => simp [List.isPrefixOf]
  | cons a l₁ ih =>
    cases l₂ with
    | nil => simp [List.isPrefixOf]
    | cons b l₂ =>
      simp only [List.isPrefixOf, Bool.and_eq_true, beq_iff_eq, List.cons_append,
        List.cons.injEq, ih]
      constructor
      · rintro ⟨rfl, t, rfl⟩
        exact ⟨t, rfl, rfl⟩
      · rintro ⟨t, rfl, rfl⟩
        exact ⟨rfl, t, rfl⟩

theorem matchesDelim_true_iff (full p : DirPath) :
    matchesDelim full p = true ↔ DelimPrefix full p := by
  unfold matchesDelim DelimPrefix
  rw [Bool.and_eq_true, isPrefixOf_true_iff]
  constructor
  · rintro ⟨⟨t, rfl⟩, h2⟩
    rw [List.drop_left] at h2
    refine ⟨t, rfl, ?_⟩
    cases t with
    | nil => exact Or.inl rfl
    | cons c t' =>
      simp only [beq_iff_eq] at h2
      exact Or.inr ⟨t', by rw [h2]⟩
  · rintro ⟨s, rfl, hs⟩
    refine ⟨⟨s, rfl⟩, ?_⟩
    rw [List.drop_left]
    rcases hs with rfl | ⟨t, rfl⟩
    · rfl
    · simp

theorem getD_map_eq (f : Watch → Watch) :
    ∀ (cache : List Watch) (j : Nat), j < cache.length →
      (cache.map f).getD j emptyWatch = f (cache.getD j emptyWatch)
  | [], j, h => absurd h (by simp)
  | w :: ws, 0, _ => rfl
  | w :: ws, j + 1, h => getD_map_eq f ws j (by simpa using h)

theorem rewriteEntry_wd (full np : DirPath) (w : Watch) :
    (rewriteEntry full np w).wd = w.wd := by
  unfold rewriteEntry
  split <;> rfl

theorem rewriteEntry_not_matched (full np : DirPath) (w : Watch)
    (h : ¬ DelimPrefix full w.path) : rewriteEntry full np w = w := by
  unfold rewriteEntry
  rw [if_neg]
  intro hc
  exact h ((matchesDelim_true_iff full w.path).mp hc)

theorem rewriteEntry_matched (full np : DirPath) (w : Watch) (s : DirPath)
    (hp : w.path = full ++ s) (hs : s = [] ∨ ∃ t, s = '/' :: t) :
    (rewriteEntry full np w).path = np ++ s := by
  unfold rewriteEntry
  rw [if_pos ((matchesDelim_true_iff full w.path).mpr ⟨s, hp, hs⟩)]
  simp only
  rw [hp, List.drop_left]

theorem countP_none_add (l : List (Option DirPath)) :
    l.countP (fun r => r == none) + l.countP (fun r => r != none) = l.length := by
  induction l with
  | nil => simp
  | cons a l ih =>
    cases a <;> simp [List.countP_cons] <;> omega

theorem findIdx_isSome_iff {α : Type} (p : α → Bool) (l : List α) :
    (l.findIdx? p).isSome = true ↔ ∃ a, a ∈ l ∧ p a = true := by
  rw [List.findIdx?_isSome, List.any_eq_true]

/-- C1: the in-tree rename cache update rewrites exactly those cached
paths whose prefix equals the old full path, the match delimited by a
slash or end-of-string: slot count and watch descriptors are untouched, a
matching path full ++ s becomes newFull ++ s with the suffix s preserved,
and a slot whose path does not have the old full path as a delimited
prefix is left entirely unchanged. -/
theorem rewriteCachedPaths_exact (oldPathStart oldName newPathStart newName : DirPath)
    (cache : List Watch) :
    (rewriteCachedPaths oldPathStart oldName newPathStart newName cache).length
        = cache.length ∧
    ∀ j, j < cache.length →
      ((rewriteCachedPaths oldPathStart oldName newPathStart newName cache).getD j
          emptyWatch).wd = (cache.getD j emptyWatch).wd ∧
      (∀ s, (cache.getD j emptyWatch).path = (oldPathStart ++ '/' :: oldName) ++ s →
        (s = [] ∨ ∃ t, s = '/' :: t) →
        ((rewriteCachedPaths oldPathStart oldName newPathStart newName cache).getD j
            emptyWatch).path = (newPathStart ++ '/' :: newName) ++ s) ∧
      (¬ DelimPrefix (oldPathStart ++ '/' :: oldName) (cache.getD j emptyWatch).path →
        (rewriteCachedPaths oldPathStart oldName newPathStart newName cache).getD j
            emptyWatch = cache.getD j emptyWatch) := by
  refine ⟨by simp [rewriteCachedPaths], ?_⟩
  intro j hj
  unfold rewriteCachedPaths
  rw [getD_map_eq _ cache j hj]
  exact ⟨rewriteEntry_wd _ _ _,
    fun s hp hs => rewriteEntry_matched _ _ _ s hp hs,
    fun h => rewriteEntry_not_matched _ _ _ h⟩

/-- C1 witness: renaming /r/A (containing child C) to /r/B maps the
cached A entry to B and A/C to B/C; the resulting cache has no duplicate
paths and no entry left under the old name. -/
theorem rewriteCachedPaths_exact_witness :
    ((rewriteCachedPaths (pstr "/r") (pstr "A") (pstr "/r") (pstr "B")
        renameDemoCache).getD 2 emptyWatch).path = pstr "/r/B/C" ∧
    rewriteCachedPaths (pstr "/r") (pstr "A") (pstr "/r") (pstr "B") renameDemoCache
      = [⟨1, pstr "/r"⟩, ⟨2, pstr "/r/B"⟩, ⟨3, pstr "/r/B/C"⟩] := by
  constructor
  · have h := rewriteCachedPaths_exact (pstr "/r") (pstr "A") (pstr "/r") (pstr "B")
      renameDemoCache
    have h2 := (h.2 2 (by decide)).2.1 (pstr "/C") (by decide)
      (Or.inr ⟨pstr "C", by decide⟩)
    exact h2.trans (by decide)
  · decide

/-- C10: the in-tree rename rewrite is a pure per-slot path update: the
watch descriptor of every slot (hence the set of occupied slots and the
slot count) is unchanged, and a slot whose path does not carry the old
full path as a delimited prefix keeps both fields; no cache entry and no
kernel watch is added or removed (the function performs no watch
registration or removal at all: its only effect is the path field of the
matching slots). -/
theorem rewriteCachedPaths_frame (oldPathStart oldName newPathStart newName : DirPath)
    (cache : List Watch) :
    (rewriteCachedPaths oldPathStart oldName newPathStart newName cache).map Watch.wd
        = cache.map Watch.wd ∧
    ∀ j, j < cache.length →
      ¬ DelimPrefix (oldPathStart ++ '/' :: oldName) (cache.getD j emptyWatch).path →
      (rewriteCachedPaths oldPathStart oldName newPathStart newName cache).getD j
          emptyWatch = cache.getD j emptyWatch := by
  constructor
  · simp [rewriteCachedPaths, List.map_map, Function.comp_def, rewriteEntry_wd]
  · intro j hj h
    unfold rewriteCachedPaths
    rw [getD_map_eq _ cache j hj]
    exact rewriteEntry_not_matched _ _ _ h

/-- C10 witness: in the /r/A to /r/B rename the descriptor column is
unchanged and the non-matching slot 0 keeps both fields. -/
theorem rewriteCachedPaths_frame_witness :
    (rewriteCachedPaths (pstr "/r") (pstr "A") (pstr "/r") (pstr "B")
        renameDemoCache).map Watch.wd = renameDemoCache.map Watch.wd ∧
    (rewriteCachedPaths (pstr "/r") (pstr "A") (pstr "/r") (pstr "B")
        renameDemoCache).getD 0 emptyWatch = renameDemoCache.getD 0 emptyWatch := by
  have h := rewriteCachedPaths_frame (pstr "/r") (pstr "A") (pstr "/r") (pstr "B")
    renameDemoCache
  refine ⟨h.1, h.2 0 (by decide) ?_⟩
  intro hd
  have hm := (matchesDelim_true_iff (pstr "/r" ++ '/' :: pstr "A")
    (renameDemoCache.getD 0 emptyWatch).path).mpr hd
  exact absurd hm (by decide)

/-- Any dispatch outcome that consumes two records (an in-tree rename)
leaves the root path list untouched. -/
theorem dispatch_consumed_two_roots (aF : Bool) (walk : DirPath → List Watch)
    (rmOk : Int → Bool) (st : EngineState) (ev : InotifyEvent)
    (next? : Option InotifyEvent) (ft : Bool) (slot? : Option Nat)
    (st' : EngineState)
    (h : processEventDispatch aF walk rmOk st ev next? ft slot? = .consumed 2 st') :
    st'.rootDirPaths = st.rootDirPaths := by
  unfold processEventDispatch at h
  repeat' split at h
  all_goals try (cases h; rfl)
  all_goals try simp_all
  all_goals split at h
  all_goals simp_all

/-- The processor step leaves the root path list untouched whenever it
consumes two records. -/
theorem processNext_consumed_two_roots (aF : Bool) (walk : DirPath → List Watch)
    (rmOk : Int → Bool) (st : EngineState) (ev : InotifyEvent)
    (rest : List InotifyEvent) (ft : Bool) (st' : EngineState)
    (h : processNextInotifyEvent aF walk rmOk st ev rest ft = .consumed 2 st') :
    st'.rootDirPaths = st.rootDirPaths := by
  unfold processNextInotifyEvent at h
  split at h
  · split at h
    · split at h <;> simp_all
    · exact dispatch_consumed_two_roots aF walk rmOk st ev rest.head? ft _ st' h
  · exact dispatch_consumed_two_roots aF walk rmOk st ev rest.head? ft none st' h

/-- C7, amended: the root-membership test is an exact character-for-
character string match against the active (non-NULL) root path strings,
with no inode comparison; but the root path strings themselves are never
rewritten by rename processing — an in-tree rename (the only step that
consumes two records) rewrites cached watch paths only and leaves the
root path list untouched, so after an observed rename the test still
answers with respect to the startup value of the root string. -/
theorem isRootDirPath_exact_string_match :
    (∀ (roots : List (Option DirPath)) (p : DirPath),
        isRootDirPath roots p = true ↔ some p ∈ roots) ∧
    (∀ (aF : Bool) (walk : DirPath → List Watch) (rmOk : Int → Bool)
        (st : EngineState) (ev : InotifyEvent) (rest : List InotifyEvent)
        (ft : Bool) (st' : EngineState),
        processNextInotifyEvent aF walk rmOk st ev rest ft = .consumed 2 st' →
        st'.rootDirPaths = st.rootDirPaths) := by
  constructor
  · intro roots p
    unfold isRootDirPath findRootDirPath
    rw [findIdx_isSome_iff]
    constructor
    · rintro ⟨a, ha, hpa⟩
      rw [beq_iff_eq] at hpa
      exact hpa ▸ ha
    · intro hm
      exact ⟨some p, hm, by simp⟩
  · intro aF walk rmOk st ev rest ft st' h
    exact processNext_consumed_two_roots aF walk rmOk st ev rest ft st' h

/-- C7 witness: membership holds exactly for the active root strings, and
the in-tree rename step of the nested-root scenario preserves the root
list. -/
theorem isRootDirPath_exact_string_match_witness :
    isRootDirPath nestedRootState.rootDirPaths (pstr "/t/a") = true ∧
    renamedNestedRootState.rootDirPaths = nestedRootState.rootDirPaths := by
  constructor
  · exact (isRootDirPath_exact_string_match.1 nestedRootState.rootDirPaths
      (pstr "/t/a")).mpr (by decide)
  · exact isRootDirPath_exact_string_match.2 false walk0 rmOkAll nestedRootState
      demoMovedFrom [demoMovedTo] true renamedNestedRootState (by decide)

/-- C7 counterexample: the claim says the root path strings consulted by
the membership test track the in-place rewrites applied as renames are
observed.  They do not: processing the in-tree rename of the nested root
/t/a to /t/b rewrites the cached path to /t/b but leaves the root list
holding /t/a, so the test answers false for the rewritten value and true
for the stale original. -/
theorem isRootDirPath_rewrite_counterexample :
    processNextInotifyEvent false walk0 rmOkAll nestedRootState demoMovedFrom
        [demoMovedTo] true = .consumed 2 renamedNestedRootState ∧
    pathnameInCache renamedNestedRootState.wlCache (pstr "/t/b") = true ∧
    isRootDirPath renamedNestedRootState.rootDirPaths (pstr "/t/b") = false ∧
    isRootDirPath renamedNestedRootState.rootDirPaths (pstr "/t/a") = true := by
  refine ⟨by decide, by decide, by decide, by decide⟩

/-- C8: zapping a root never deletes its slot from the root list — the
slot is overwritten with none (NULL) and the list length is preserved —
and when the zap leaves no active root (the zapped root was the last one
still monitored) the engine terminates at once. -/
theorem zapRootDirPath_marks_and_terminates (st : EngineState) (p : DirPath) (j : Nat)
    (hfind : findRootDirPath st.rootDirPaths p = some j)
    (hnum : st.numRootDirs = st.rootDirPaths.length)
    (hign : st.ignoreRootDirs = st.rootDirPaths.countP (fun r => r == none)) :
    (∀ st', zapRootDirPath st p = .ok st' →
        st'.rootDirPaths.length = st.rootDirPaths.length ∧
        st'.rootDirPaths = st.rootDirPaths.set j none) ∧
    (st.rootDirPaths.countP (fun r => r != none) = 1 →
        zapRootDirPath st p = .terminated) := by
  constructor
  · intro st' h
    simp only [zapRootDirPath, hfind] at h
    split at h
    · cases h
    · cases h
      exact ⟨by simp, rfl⟩
  · intro hone
    simp only [zapRootDirPath, hfind]
    rw [if_pos]
    have hsum := countP_none_add st.rootDirPaths
    omega

/-- C8 witness: zapping the nested root /t/a keeps a two-slot root list
with the slot overwritten, and zapping the only root of lastRootState
terminates the engine. -/
theorem zapRootDirPath_marks_and_terminates_witness :
    zappedNestedState.rootDirPaths.length = nestedRootState.rootDirPaths.length ∧
    zapRootDirPath lastRootState (pstr "/t") = .terminated := by
  have h1 := zapRootDirPath_marks_and_terminates nestedRootState (pstr "/t/a") 1
    (by decide) (by decide) (by decide)
  have h2 := zapRootDirPath_marks_and_terminates lastRootState (pstr "/t") 0
    (by decide) (by decide) (by decide)
  exact ⟨(h1.1 zappedNestedState (by decide)).1, h2.2 (by decide)⟩

/-- C9: a Created or MovedTo directory event whose resulting full path is
already cached is skipped: the state is returned unchanged, one record is
consumed, and the result does not depend on the walk oracle (no subtree
walk, no insertion). -/
theorem createdOrMovedTo_cached_skip (aF : Bool) (walk : DirPath → List Watch)
    (rmOk : Int → Bool) (st : EngineState) (ev : InotifyEvent)
    (rest : List InotifyEvent) (ft : Bool) (s : Nat)
    (hwd : ev.wd ≠ -1) (hign : ev.mask.ignored = false)
    (hdir : ev.mask.isDir = true)
    (hkind : ev.mask.create = true ∨ ev.mask.movedTo = true)
    (hslot : findWatch st.wlCache ev.wd = some s)
    (hcached : pathnameInCache st.wlCache ((cacheAt st s).path ++ '/' :: ev.name) = true) :
    processNextInotifyEvent aF walk rmOk st ev rest ft = .consumed 1 st := by
  have hc : (ev.mask.isDir && (ev.mask.create || ev.mask.movedTo)) = true := by
    rcases hkind with h | h <;> simp [hdir, h]
  simp [processNextInotifyEvent, processEventDispatch, hwd, hign, hslot, hc, hcached]

/-- C9 witness: a Created record for /t/a while /t/a is already cached
leaves demoState unchanged. -/
theorem createdOrMovedTo_cached_skip_witness :
    processNextInotifyEvent false walk0 rmOkAll demoState demoCreateA [] true
      = .consumed 1 demoState :=
  createdOrMovedTo_cached_skip false walk0 rmOkAll demoState demoCreateA [] true 0
    (by decide) (by decide) (by decide) (by decide) (by decide) (by decide)

/-- C4: when the watch handle of a non-overflow, non-ignored event is
absent from the cache, the remainder of the read buffer is abandoned and
the engine reinitializes; in the abort-on-cache-problem debug
configuration the process instead creates the stop file, dumps a cache
snapshot and aborts (the aborted outcome). -/
theorem cacheMiss_reinitialize_or_abort (walk : DirPath → List Watch)
    (rmOk : Int → Bool) (st : EngineState) (ev : InotifyEvent)
    (rest : List InotifyEvent) (ft : Bool)
    (hwd : ev.wd ≠ -1) (hign : ev.mask.ignored = false)
    (hmiss : findWatch st.wlCache ev.wd = none) :
    processNextInotifyEvent false walk rmOk st ev rest ft
        = .discardRest (reinitializeCache walk st) ∧
    processNextInotifyEvent true walk rmOk st ev rest ft = .aborted := by
  constructor <;> simp [processNextInotifyEvent, hwd, hign, hmiss]

/-- C4 witness: an event with unknown descriptor 99 triggers
reinitialization, or the abort outcome in debug mode. -/
theorem cacheMiss_reinitialize_or_abort_witness :
    processNextInotifyEvent false walk0 rmOkAll demoState strayEvent [] true
        = .discardRest (reinitializeCache walk0 demoState) ∧
    processNextInotifyEvent true walk0 rmOkAll demoState strayEvent [] true
        = .aborted :=
  cacheMiss_reinitialize_or_abort walk0 rmOkAll demoState strayEvent [] true
    (by decide) (by decide) (by decide)

/-- C5: a queue-overflow record (wd = -1, mask = IN_Q_OVERFLOW only)
unconditionally reinitializes — the old notification channel is discarded
(generation bump), the cache is cleared and rebuilt by a full walk of
every non-zapped root, the root list is untouched — and the rest of the
read buffer is discarded; no other repair path is taken. -/
theorem queueOverflow_reinitializes (aF : Bool) (walk : DirPath → List Watch)
    (rmOk : Int → Bool) (st : EngineState) (ev : InotifyEvent)
    (rest : List InotifyEvent) (ft : Bool)
    (hwd : ev.wd = -1) (hmask : ev.mask = qOverflowMask) :
    processNextInotifyEvent aF walk rmOk st ev rest ft
        = .discardRest (reinitializeCache walk st) ∧
    (reinitializeCache walk st).wlCache = st.rootDirPaths.foldl
        (fun c r => match r with
          | some p => watchSubtree (walk p) c
          | none => c) [] ∧
    (reinitializeCache walk st).generation = st.generation + 1 ∧
    (reinitializeCache walk st).rootDirPaths = st.rootDirPaths := by
  refine ⟨?_, rfl, rfl, rfl⟩
  simp [processNextInotifyEvent, processEventDispatch, hwd, hmask, qOverflowMask]

/-- C5 witness: a concrete overflow record in front of another buffered
record reinitializes and discards the rest of the buffer. -/
theorem queueOverflow_reinitializes_witness :
    processNextInotifyEvent false walk0 rmOkAll demoState overflowEvent
        [demoCreate] true = .discardRest (reinitializeCache walk0 demoState) :=
  (queueOverflow_reinitializes false walk0 rmOkAll demoState overflowEvent
    [demoCreate] true rfl rfl).1

/-- C2: processing a directory MovedFrom record inspects exactly one
following record of the buffered batch — the step's outcome depends on
the remaining buffer only through its first record — and the rename is
classified as in-tree exactly when that record is a MovedTo with the same
cookie; in that case both records are consumed in the same step (consumed
length 2, or, on a cache miss for the MovedTo descriptor, the whole
buffer is covered by the discard). -/
theorem movedFrom_one_event_lookahead (aF : Bool) (walk : DirPath → List Watch)
    (rmOk : Int → Bool) (st : EngineState) (ev : InotifyEvent)
    (rest : List InotifyEvent) (ft : Bool) (s : Nat)
    (hwd : ev.wd ≠ -1) (hign : ev.mask.ignored = false)
    (hdir : ev.mask.isDir = true) (hmf : ev.mask.movedFrom = true)
    (hnc : ev.mask.create = false) (hnt : ev.mask.movedTo = false)
    (hds : ev.mask.deleteSelf = false)
    (hslot : findWatch st.wlCache ev.wd = some s) :
    (∀ r1 r2 : List InotifyEvent, r1.head? = r2.head? →
      processNextInotifyEvent aF walk rmOk st ev r1 ft
        = processNextInotifyEvent aF walk rmOk st ev r2 ft) ∧
    (∀ nx, rest.head? = some nx → nx.mask.movedTo = true → nx.cookie = ev.cookie →
      (∀ ns, findWatch st.wlCache nx.wd = some ns →
        processNextInotifyEvent aF walk rmOk st ev rest ft
          = .consumed 2 (withCache st (rewriteCachedPaths (cacheAt st s).path
              ev.name (cacheAt st ns).path nx.name st.wlCache))) ∧
      (findWatch st.wlCache nx.wd = none →
        processNextInotifyEvent aF walk rmOk st ev rest ft
          = if aF then .aborted else .discardRest (reinitializeCache walk st))) ∧
    ((¬ ∃ nx, rest.head? = some nx ∧ nx.mask.movedTo = true ∧ nx.cookie = ev.cookie) →
      ∀ st', processNextInotifyEvent aF walk rmOk st ev rest ft ≠ .consumed 2 st') := by
  have hc1 : (ev.mask.isDir && (ev.mask.create || ev.mask.movedTo)) = false := by
    simp [hnc, hnt]
  have hc3 : (ev.mask.movedFrom && ev.mask.isDir) = true := by
    simp [hmf, hdir]
  refine ⟨?_, ?_, ?_⟩
  · intro r1 r2 h
    simp only [processNextInotifyEvent, h]
  · intro nx hnx hmt hck
    constructor
    · intro ns hns
      simp [processNextInotifyEvent, processEventDispatch, withCache, hwd, hign,
        hslot, hc1, hds, hc3, hnx, hmt, hck, hns]
    · intro hnone
      simp [processNextInotifyEvent, processEventDispatch, hwd, hign, hslot,
        hc1, hds, hc3, hnx, hmt, hck, hnone]
  · intro hno st' h
    rcases hh : rest.head? with _ | nx
    · rcases hz : zapSubtree rmOk ((cacheAt st s).path ++ '/' :: ev.name) st.wlCache
        with _ | c <;>
        cases ft <;>
          simp [processNextInotifyEvent, processEventDispatch, hwd, hign, hslot,
            hc1, hds, hc3, hh, hz] at h
    · have hb : (nx.mask.movedTo && nx.cookie == ev.cookie) = false := by
        cases hmt : nx.mask.movedTo with
        | false => simp [hmt]
        | true =>
          cases hck : nx.cookie == ev.cookie with
          | false => simp [hmt, hck]
          | true => exact absurd ⟨nx, hh, hmt, by rwa [beq_iff_eq] at hck⟩ hno
      rcases hz : zapSubtree rmOk ((cacheAt st s).path ++ '/' :: ev.name) st.wlCache
        with _ | c <;>
        simp [processNextInotifyEvent, processEventDispatch, hwd, hign, hslot,
          hc1, hds, hc3, hh, hb, hz] at h

/-- C2 witness: the MovedFrom/MovedTo pair with cookie 7 is recognized as
an in-tree rename and both records are consumed in one step. -/
theorem movedFrom_one_event_lookahead_witness :
    processNextInotifyEvent false walk0 rmOkAll demoState demoMovedFrom
        [demoMovedTo] true
      = .consumed 2 (withCache demoState [⟨1, pstr "/t"⟩, ⟨2, pstr "/t/b"⟩]) := by
  have h := movedFrom_one_event_lookahead false walk0 rmOkAll demoState demoMovedFrom
    [demoMovedTo] true 0 (by decide) (by decide) (by decide) (by decide) (by decide)
    (by decide) (by decide) (by decide)
  have h2 := (h.2.1 demoMovedTo rfl (by decide) (by decide)).1 0 (by decide)
  exact h2.trans (by decide)

/-- C3 counterexample: a first-attempt directory MovedFrom that finds no
matching MovedTo is NOT always deferred: when an unrelated (non-matching)
record follows it in the batch, the subtree is removed immediately — the
step consumes one record and zaps /t/a instead of requesting a
supplementary read. -/
theorem movedFrom_first_attempt_counterexample :
    processNextInotifyEvent false walk0 rmOkAll demoState demoMovedFrom
        [demoCreate] true
      = .consumed 1 (withCache demoState [⟨1, pstr "/t"⟩, emptyWatch]) ∧
    processNextInotifyEvent false walk0 rmOkAll demoState demoMovedFrom
        [demoCreate] true ≠ .deferRead := by
  exact ⟨by decide, by decide⟩

/-- C3, amended: a first-attempt directory MovedFrom defers (requests a
supplementary read) exactly when it is the last record of the buffered
batch; when any following record exists and does not match, or when this
is the retry (the supplementary read returned nothing and the record is
reprocessed with the flag cleared), the out-of-tree removal runs at
once. -/
theorem movedFrom_defer_only_at_batch_end (aF : Bool) (walk : DirPath → List Watch)
    (rmOk : Int → Bool) (st : EngineState) (ev : InotifyEvent)
    (rest : List InotifyEvent) (ft : Bool) (s : Nat)
    (hwd : ev.wd ≠ -1) (hign : ev.mask.ignored = false)
    (hdir : ev.mask.isDir = true) (hmf : ev.mask.movedFrom = true)
    (hnc : ev.mask.create = false) (hnt : ev.mask.movedTo = false)
    (hds : ev.mask.deleteSelf = false)
    (hslot : findWatch st.wlCache ev.wd = some s) :
    (rest.head? = none → ft = true →
      processNextInotifyEvent aF walk rmOk st ev rest ft = .deferRead) ∧
    (∀ nx, rest.head? = some nx →
      (nx.mask.movedTo && nx.cookie == ev.cookie) = false →
      ∀ c, zapSubtree rmOk ((cacheAt st s).path ++ '/' :: ev.name) st.wlCache = some c →
      processNextInotifyEvent aF walk rmOk st ev rest ft
        = .consumed 1 (withCache st c)) ∧
    (rest.head? = none → ft = false →
      ∀ c, zapSubtree rmOk ((cacheAt st s).path ++ '/' :: ev.name) st.wlCache = some c →
      processNextInotifyEvent aF walk rmOk st ev rest ft
        = .consumed 1 (withCache st c)) := by
  have hc1 : (ev.mask.isDir && (ev.mask.create || ev.mask.movedTo)) = false := by
    simp [hnc, hnt]
  have hc3 : (ev.mask.movedFrom && ev.mask.isDir) = true := by
    simp [hmf, hdir]
  refine ⟨?_, ?_, ?_⟩
  · intro hh hft
    simp [processNextInotifyEvent, processEventDispatch, hwd, hign, hslot,
      hc1, hds, hc3, hh, hft]
  · intro nx hh hb c hz
    simp [processNextInotifyEvent, processEventDispatch, withCache, hwd, hign,
      hslot, hc1, hds, hc3, hh, hb, hz]
  · intro hh hft c hz
    simp [processNextInotifyEvent, processEventDispatch, withCache, hwd, hign,
      hslot, hc1, hds, hc3, hh, hft, hz]

/-- C3 witness: the MovedFrom for /t/a at the end of the batch defers on
the first attempt; with the unrelated Created record following it the
out-of-tree removal runs at once; and on the retry (end of batch, flag
cleared) the removal also runs at once. -/
theorem movedFrom_defer_only_at_batch_end_witness :
    processNextInotifyEvent false walk0 rmOkAll demoState demoMovedFrom [] true
        = .deferRead ∧
    processNextInotifyEvent false walk0 rmOkAll demoState demoMovedFrom
        [demoCreate] true
      = .consumed 1 (withCache demoState [⟨1, pstr "/t"⟩, emptyWatch]) ∧
    processNextInotifyEvent false walk0 rmOkAll demoState demoMovedFrom [] false
      = .consumed 1 (withCache demoState [⟨1, pstr "/t"⟩, emptyWatch]) := by
  have h := movedFrom_defer_only_at_batch_end false walk0 rmOkAll demoState
    demoMovedFrom [] true 0 (by decide) (by decide) (by decide) (by decide)
    (by decide) (by decide) (by decide) (by decide)
  have h2 := movedFrom_defer_only_at_batch_end false walk0 rmOkAll demoState
    demoMovedFrom [demoCreate] true 0 (by decide) (by decide) (by decide)
    (by decide) (by decide) (by decide) (by decide) (by decide)
  have h3 := movedFrom_defer_only_at_batch_end false walk0 rmOkAll demoState
    demoMovedFrom [] false 0 (by decide) (by decide) (by decide) (by decide)
    (by decide) (by decide) (by decide) (by decide)
  exact ⟨h.1 rfl rfl,
    h2.2.1 demoCreate rfl (by decide) [⟨1, pstr "/t"⟩, emptyWatch] (by decide),
    h3.2.2 rfl rfl [⟨1, pstr "/t"⟩, emptyWatch] (by decide)⟩

/-- A deferral can only happen on a first attempt: the dispatch returns
deferRead only from the branch guarded by the retry flag. -/
theorem deferRead_firstTry_eq_true (aF : Bool) (walk : DirPath → List Watch)
    (rmOk : Int → Bool) (st : EngineState) (ev : InotifyEvent)
    (rest : List InotifyEvent) (ft : Bool)
    (h : processNextInotifyEvent aF walk rmOk st ev rest ft = .deferRead) :
    ft = true := by
  unfold processNextInotifyEvent processEventDispatch at h
  repeat' split at h
  all_goals try simp_all
  all_goals split at h
  all_goals simp_all

/-- Every consuming step consumes at least one record. -/
theorem consumed_pos (aF : Bool) (walk : DirPath → List Watch)
    (rmOk : Int → Bool) (st : EngineState) (ev : InotifyEvent)
    (rest : List InotifyEvent) (ft : Bool) (n : Nat) (st' : EngineState)
    (h : processNextInotifyEvent aF walk rmOk st ev rest ft = .consumed n st') :
    1 ≤ n := by
  unfold processNextInotifyEvent processEventDispatch at h
  repeat' split at h
  all_goals try (cases h; omega)
  all_goals try simp_all
  all_goals split at h
  all_goals (cases h; omega)

/-- C6: the supplementary read is attempted at most once per pending
MovedFrom record — with the retry flag cleared the processor never defers
again (first conjunct) — and therefore the loop over any read buffer of
events terminates: the stated fuel, computed from the buffer and the
supplementary batches, always suffices for processLoopFuel to reach an
outcome (second conjunct). -/
theorem retryFlag_guarantees_termination :
    (∀ (aF : Bool) (walk : DirPath → List Watch) (rmOk : Int → Bool)
        (st : EngineState) (ev : InotifyEvent) (rest : List InotifyEvent),
        processNextInotifyEvent aF walk rmOk st ev rest false ≠ .deferRead) ∧
    (∀ (aF : Bool) (walk : DirPath → List Watch) (rmOk : Int → Bool)
        (fuel : Nat) (st : EngineState) (buf : List InotifyEvent) (ft : Bool)
        (supply : List (List InotifyEvent)),
        loopMeasure buf ft supply ≤ fuel →
        processLoopFuel aF walk rmOk fuel st buf ft supply ≠ none) := by
  constructor
  · intro aF walk rmOk st ev rest h
    have := deferRead_firstTry_eq_true aF walk rmOk st ev rest false h
    simp at this
  · intro aF walk rmOk fuel
    induction fuel with
    | zero =>
      intro st buf ft supply hm
      unfold loopMeasure at hm
      omega
    | succ fuel ih =>
      intro st buf ft supply hm
      cases buf with
      | nil => simp [processLoopFuel]
      | cons ev rest =>
        cases hp : processNextInotifyEvent aF walk rmOk st ev rest ft with
        | consumed n st' =>
          have hn := consumed_pos aF walk rmOk st ev rest ft n st' hp
          simp only [processLoopFuel, hp]
          apply ih
          have hd : (List.drop n (ev :: rest)).length = rest.length + 1 - n := by
            simp [List.length_drop]
          unfold loopMeasure at hm ⊢
          rw [hd]
          cases ft <;> simp_all <;> omega
        | discardRest st' => simp [processLoopFuel, hp]
        | deferRead =>
          have hft := deferRead_firstTry_eq_true aF walk rmOk st ev rest ft hp
          subst hft
          simp only [processLoopFuel, hp]
          apply ih
          cases supply with
          | nil =>
            unfold loopMeasure supplyLen at hm ⊢
            simp_all
            try omega
          | cons b tl =>
            unfold loopMeasure supplyLen at hm ⊢
            simp_all
            try omega
        | terminated => simp [processLoopFuel, hp]
        | fatalError => simp [processLoopFuel, hp]
        | aborted => simp [processLoopFuel, hp]
        | undefinedBehavior => simp [processLoopFuel, hp]

/-- C6 witness: a lone MovedFrom with one supplementary batch carrying the
matching MovedTo finishes within the stated fuel. -/
theorem retryFlag_guarantees_termination_witness :
    processLoopFuel false walk0 rmOkAll 9 demoState [demoMovedFrom] true
        [[demoMovedTo]] ≠ none :=
  retryFlag_guarantees_termination.2 false walk0 rmOkAll 9 demoState
    [demoMovedFrom] true [[demoMovedTo]] (by decide)

end InotifyDtree
